import Mathlib

/-!
Verification of the extended-fraction library (rust_ai/src/lib.rs).

The Rust type `ExtFraction` stores a pair of `i128` integers
(numerator, denominator).  Machine integers are modelled by unbounded `Int`
(the spec explicitly treats fixed-width overflow as an open boundary, and no
claim here exercises the `i128` ceiling), except where the source itself
manipulates bit patterns (`from_float`), where the two's-complement wrap of
`i128` shifts is made explicit.

Rust `/` and `%` on `i128` truncate toward zero; they are modelled by
`Int.tdiv` and `Int.tmod`.  A Rust `panic!` (division by zero inside
`limit_denominator`) and nontermination are modelled by `Option`: `none`
means the call does not return normally.  Rust `Result<T, String>` is
modelled by `Except String T`.
-/

/-- Models `pub struct ExtFraction { numerator: i128, denominator: i128 }`. -/
structure ExtFraction where
  numerator : Int
  denominator : Int
deriving DecidableEq

/-- Models `fn gcd(a: i128, b: i128) -> i128`: the Euclidean loop on the
absolute values of the two arguments, which is exactly `Nat.gcd` on the
absolute values. -/
def gcdI (a b : Int) : Int := (Nat.gcd a.natAbs b.natAbs : Int)

namespace ExtFraction

/-- Models `ExtFraction::is_finite`. -/
def is_finite (self : ExtFraction) : Bool := self.denominator != 0

/-- Models `ExtFraction::is_infinite`. -/
def is_infinite (self : ExtFraction) : Bool :=
  self.denominator == 0 && self.numerator != 0

/-- Models `ExtFraction::is_nan`. -/
def is_nan (self : ExtFraction) : Bool :=
  self.denominator == 0 && self.numerator == 0

/-- Models `ExtFraction::reduce`.  The source takes `i128` absolute values,
divides both by their gcd and then re-attaches the sign; absolute values and
exact division of nonnegative `i128` values are computed in `Nat`. -/
def reduce (numerator denominator : Int) : Int × Int :=
  let num : Nat := numerator.natAbs
  let den : Nat := denominator.natAbs
  let g : Nat := Nat.gcd num den
  let num2 : Nat := num / g
  let den2 : Nat := den / g
  if decide (numerator < 0) != decide (denominator < 0) then
    (-(num2 : Int), (den2 : Int))
  else
    ((num2 : Int), (den2 : Int))

/-- Models `ExtFraction::new`. -/
def new (numerator denominator : Int) : ExtFraction :=
  if denominator = 0 then
    if numerator = 0 then ⟨0, 0⟩
    else if numerator > 0 then ⟨1, 0⟩
    else ⟨-1, 0⟩
  else
    let nd := reduce numerator denominator
    ⟨nd.1, nd.2⟩

/-- Models `ExtFraction::from_integer`. -/
def from_integer (n : Int) : ExtFraction := ⟨n, 1⟩

/-- Models `ExtFraction::infinity`. -/
def infinity (sign : Bool) : ExtFraction := ⟨if sign then 1 else -1, 0⟩

/-- Models `ExtFraction::nan`. -/
def nan : ExtFraction := ⟨0, 0⟩

/-- Models `impl PartialEq for ExtFraction` (`fn eq`). -/
def eqb (self other : ExtFraction) : Bool :=
  if self.is_nan || other.is_nan then false
  else if self.is_infinite && other.is_infinite then
    self.numerator == other.numerator
  else if self.is_infinite || other.is_infinite then false
  else
    self.numerator == other.numerator && self.denominator == other.denominator

/-- Models `impl Neg for ExtFraction` (`fn neg`). -/
def neg (self : ExtFraction) : ExtFraction :=
  if self.is_nan then nan
  else if self.is_infinite then infinity (self.numerator < 0)
  else ⟨-self.numerator, self.denominator⟩

/-- Models `ExtFraction::add` (the finite path is the gcd-optimised
cross-multiplication of the source). -/
def add (self other : ExtFraction) : ExtFraction :=
  if self.is_nan || other.is_nan then nan
  else if self.is_infinite && other.is_infinite then nan
  else if self.is_infinite || other.is_infinite then
    if self.is_infinite then self else other
  else
    let na := self.numerator
    let da := self.denominator
    let nb := other.numerator
    let db := other.denominator
    let g := gcdI da db
    if g = 1 then
      let nd := reduce (na * db + da * nb) (da * db)
      ⟨nd.1, nd.2⟩
    else
      let s := da.tdiv g
      let t := na * (db.tdiv g) + nb * s
      let g2 := gcdI t g
      if g2 = 1 then
        let nd := reduce t (s * db)
        ⟨nd.1, nd.2⟩
      else
        let nd := reduce (t.tdiv g2) (s * (db.tdiv g2))
        ⟨nd.1, nd.2⟩

/-- Models `ExtFraction::sub`. -/
def sub (self other : ExtFraction) : ExtFraction :=
  if self.is_nan || other.is_nan then nan
  else if self.is_infinite && other.is_infinite then
    if self.numerator = other.numerator then nan else self
  else if self.is_infinite || other.is_infinite then
    if self.is_infinite then self else neg other
  else
    let na := self.numerator
    let da := self.denominator
    let nb := other.numerator
    let db := other.denominator
    let g := gcdI da db
    if g = 1 then
      let nd := reduce (na * db - da * nb) (da * db)
      ⟨nd.1, nd.2⟩
    else
      let s := da.tdiv g
      let t := na * (db.tdiv g) - nb * s
      let g2 := gcdI t g
      if g2 = 1 then
        let nd := reduce t (s * db)
        ⟨nd.1, nd.2⟩
      else
        let nd := reduce (t.tdiv g2) (s * (db.tdiv g2))
        ⟨nd.1, nd.2⟩

/-- Models `ExtFraction::mul` (with the source's cross-cancellation). -/
def mul (self other : ExtFraction) : ExtFraction :=
  if self.is_nan || other.is_nan then nan
  else if self.is_infinite || other.is_infinite then
    if (self.is_infinite && other.numerator == 0)
        || (other.is_infinite && self.numerator == 0) then nan
    else
      let sign_positive : Bool :=
        if self.is_infinite then decide (self.numerator > 0)
        else decide (other.numerator > 0)
      let other_sign_positive : Bool :=
        if self.is_infinite then decide (other.numerator ≥ 0)
        else decide (self.numerator ≥ 0)
      infinity (sign_positive == other_sign_positive)
  else
    let na := self.numerator
    let da := self.denominator
    let nb := other.numerator
    let db := other.denominator
    let g1 := gcdI na db
    let na2 := if g1 > 1 then na.tdiv g1 else na
    let db2 := if g1 > 1 then db.tdiv g1 else db
    let g2 := gcdI nb da
    let nb2 := if g2 > 1 then nb.tdiv g2 else nb
    let da2 := if g2 > 1 then da.tdiv g2 else da
    let nd := reduce (na2 * nb2) (db2 * da2)
    ⟨nd.1, nd.2⟩

/-- Models `ExtFraction::div`. -/
def div (self other : ExtFraction) : ExtFraction :=
  if self.is_nan || other.is_nan then nan
  else if other.is_infinite then from_integer 0
  else if self.is_infinite then self
  else if other.numerator = 0 then
    if self.numerator = 0 then nan
    else infinity (self.numerator > 0)
  else
    let na := self.numerator
    let da := self.denominator
    let nb := other.numerator
    let db := other.denominator
    let g1 := gcdI na nb
    let na2 := if g1 > 1 then na.tdiv g1 else na
    let nb2 := if g1 > 1 then nb.tdiv g1 else nb
    let g2 := gcdI db da
    let da2 := if g2 > 1 then da.tdiv g2 else da
    let db2 := if g2 > 1 then db.tdiv g2 else db
    let num := na2 * db2
    let den := nb2 * da2
    let num2 := if den < 0 then -num else num
    let den2 := if den < 0 then -den else den
    let nd := reduce num2 den2
    ⟨nd.1, nd.2⟩

/-- Models `ExtFraction::pow` (exponent is a Rust `i32`). -/
def pow (self : ExtFraction) (exp : Int) : ExtFraction :=
  if self.is_nan then nan
  else if self.is_infinite then
    if exp = 0 then from_integer 1
    else if exp > 0 then self
    else from_integer 0
  else if exp ≥ 0 then
    let nd := reduce (self.numerator ^ exp.toNat) (self.denominator ^ exp.toNat)
    ⟨nd.1, nd.2⟩
  else if self.numerator = 0 then infinity true
  else
    let nd := reduce (self.denominator ^ (-exp).toNat) (self.numerator ^ (-exp).toNat)
    ⟨nd.1, nd.2⟩

/-- Models `impl Ord for ExtFraction` (`fn cmp`): raw cross-multiplication
with no special-value dispatch. -/
def cmp (self other : ExtFraction) : Ordering :=
  compare (self.numerator * other.denominator) (other.numerator * self.denominator)

/-- Models `impl PartialOrd for ExtFraction` (`fn partial_cmp`). -/
def pcmp (self other : ExtFraction) : Option Ordering :=
  if self.is_nan || other.is_nan then none
  else if self.is_infinite && other.is_infinite then
    if self.numerator = other.numerator then some Ordering.eq
    else if self.numerator > other.numerator then some Ordering.gt
    else some Ordering.lt
  else if self.is_infinite then
    some (if self.numerator > 0 then Ordering.gt else Ordering.lt)
  else if other.is_infinite then
    some (if other.numerator > 0 then Ordering.lt else Ordering.gt)
  else some (cmp self other)

/-- Rust `a > b` for a `PartialOrd` type: `partial_cmp(a,b) == Some(Greater)`. -/
def gtb (self other : ExtFraction) : Bool := pcmp self other == some Ordering.gt

/-- Rust `a < b` for a `PartialOrd` type: `partial_cmp(a,b) == Some(Less)`. -/
def ltb (self other : ExtFraction) : Bool := pcmp self other == some Ordering.lt

end ExtFraction

/-- A Rust `f64` as the source consumes it: the source first dispatches on
`is_nan` / `is_infinite` (with the sign of the infinity) and only then reads
the raw IEEE-754 bit pattern of the (finite) double. -/
inductive FP64 where
  | nan : FP64
  | inf (positive : Bool) : FP64
  | finite (bits : Nat) : FP64

/-- Interpret an integer as an `i128` two's-complement value (wrap into
the interval from -2^127 to 2^127 - 1). -/
def wrap128 (n : Int) : Int :=
  (n + ((2 ^ 127 : Nat) : Int)) % ((2 ^ 128 : Nat) : Int) - ((2 ^ 127 : Nat) : Int)

/-- Models `1i128.checked_shl(sh).unwrap_or(i128::MAX)`: `checked_shl`
returns `None` only when the shift amount is at least 128; otherwise the
shift wraps in two's complement. -/
def shlOne (sh : Nat) : Int :=
  if sh ≥ 128 then ((2 ^ 127 : Nat) : Int) - 1 else wrap128 ((2 ^ sh : Nat) : Int)

namespace ExtFraction

/-- Models `ExtFraction::from_float`.  The finite branch decomposes the raw
bits into sign, biased exponent and mantissa with the implicit leading bit
restored, exactly as the source does. -/
def from_float (f : FP64) : ExtFraction :=
  match f with
  | FP64.nan => nan
  | FP64.inf positive => infinity positive
  | FP64.finite bits =>
    let sign : Int := if bits >>> 63 = 1 then -1 else 1
    let exponent : Int := (((bits >>> 52) &&& 0x7ff : Nat) : Int) - 1023
    let mantissa : Int := (((bits &&& ((1 <<< 52) - 1)) ||| (1 <<< 52) : Nat) : Int)
    let numerator := sign * mantissa
    if exponent ≥ 0 then ⟨numerator, shlOne exponent.toNat⟩
    else ⟨numerator, shlOne (-exponent).toNat⟩

end ExtFraction

/-- The IEEE-754 bit pattern of the double 0.5 (sign 0, biased exponent
0x3FE, mantissa 0). -/
def halfBits : Nat := 0x3FE0000000000000

/-- The representation invariant claimed by the spec: finite values have a
positive denominator and are fully reduced; denominator-zero values carry a
numerator in {-1, 0, 1}. -/
def repInvariant (f : ExtFraction) : Prop :=
  (f.denominator ≠ 0 →
    0 < f.denominator ∧ Nat.gcd f.numerator.natAbs f.denominator.natAbs = 1) ∧
  (f.denominator = 0 → f.numerator = -1 ∨ f.numerator = 0 ∨ f.numerator = 1)

instance (f : ExtFraction) : Decidable (repInvariant f) := by
  unfold repInvariant
  infer_instance

/-- The mutable loop state of `ExtFraction::limit_denominator`: the two
trailing convergent pairs and the remainder pair. -/
structure LDState where
  p0 : Int
  q0 : Int
  p1 : Int
  q1 : Int
  n : Int
  d : Int
deriving DecidableEq

/-- Models the `loop { ... }` of `ExtFraction::limit_denominator`.  Rust
divides `n / d` first thing in the body, so a zero `d` panics (modelled as
`none`); `none` is also returned when the fuel runs out, standing for
nontermination.  The `break` returns the state as of the break. -/
def ldLoop (maxDenominator : Int) : Nat → LDState → Option LDState
  | 0, _ => none
  | fuel + 1, st =>
    if st.d = 0 then none
    else
      let a := st.n.tdiv st.d
      let q2 := st.q0 + a * st.q1
      if maxDenominator < q2 then some st
      else ldLoop maxDenominator fuel
        ⟨st.p1, st.q1, st.p0 + a * st.p1, q2, st.d, st.n - a * st.d⟩

/-- Error message of `limit_denominator` for a bound below 1. -/
def maxDenomErr : String := "max_denominator should be at least 1"

namespace ExtFraction

/-- Models `ExtFraction::limit_denominator`.  The result is `none` when the
Rust code panics (or fails to terminate); otherwise `some` of the returned
`Result`.  The fuel bound `denominator.natAbs + 2` is sufficient for every
run that Rust completes: the remainder `d` strictly decreases while it stays
positive, and any other run hits the `d = 0` division panic, which is
detected explicitly regardless of remaining fuel. -/
def limit_denominator (self : ExtFraction) (max_denominator : Int) :
    Option (Except String ExtFraction) :=
  if self.is_nan || self.is_infinite then some (Except.ok self)
  else if max_denominator < 1 then some (Except.error maxDenomErr)
  else if self.denominator ≤ max_denominator then some (Except.ok self)
  else
    match ldLoop max_denominator (self.denominator.natAbs + 2)
        ⟨0, 1, 1, 0, self.numerator, self.denominator⟩ with
    | none => none
    | some st =>
      let k := (max_denominator - st.q0).tdiv st.q1
      if 2 * st.d * (st.q0 + k * st.q1) ≤ self.denominator then
        some (Except.ok ⟨st.p1, st.q1⟩)
      else
        some (Except.ok ⟨st.p0 + k * st.p1, st.q0 + k * st.q1⟩)

end ExtFraction

lemma not_nan_of_infinite (a : ExtFraction) (h : a.is_infinite = true) :
    a.is_nan = false := by
  simp only [ExtFraction.is_infinite, Bool.and_eq_true, beq_iff_eq, bne_iff_ne] at h
  simp [ExtFraction.is_nan, h.1, h.2]

lemma not_nan_of_finite (a : ExtFraction) (h : a.denominator ≠ 0) :
    a.is_nan = false ∧ a.is_infinite = false := by
  constructor <;> simp [ExtFraction.is_nan, ExtFraction.is_infinite, h]

/-- C5: concrete algebra of the signed infinities `new(1,0)` and `new(-1,0)`:
inf + 2 == inf, inf - inf is NaN, 0 * inf is NaN, 2 / inf == 0,
inf > 1000 and -inf < -1000 (Rust `>` and `<` are
`partial_cmp == Some(Greater/Less)`). -/
theorem c5_infinity_algebra :
    ExtFraction.eqb
      (ExtFraction.add (ExtFraction.new 1 0) (ExtFraction.from_integer 2))
      (ExtFraction.new 1 0) = true ∧
    (ExtFraction.sub (ExtFraction.new 1 0) (ExtFraction.new 1 0)).is_nan = true ∧
    (ExtFraction.mul (ExtFraction.from_integer 0) (ExtFraction.new 1 0)).is_nan = true ∧
    ExtFraction.eqb
      (ExtFraction.div (ExtFraction.from_integer 2) (ExtFraction.new 1 0))
      (ExtFraction.from_integer 0) = true ∧
    ExtFraction.gtb (ExtFraction.new 1 0) (ExtFraction.new 1000 1) = true ∧
    ExtFraction.ltb (ExtFraction.new (-1) 0) (ExtFraction.new (-1000) 1) = true := by
  decide

/-- C6 counterexample: for `a = -infinity` and `b = +infinity` (infinities of
different signs) the code returns the minuend `a = -infinity`, not "the
operand with the numerically larger signed infinity", which is `b`. -/
theorem c6_counterexample :
    ExtFraction.sub (ExtFraction.new (-1) 0) (ExtFraction.new 1 0) =
      ExtFraction.new (-1) 0 ∧
    ExtFraction.new (-1) 0 ≠ ExtFraction.new 1 0 := by decide

/-- C6 (amended): for `a - b` with both operands infinite, equal numerators
(equal signs) give NaN and different numerators return the minuend `a`
itself; an infinite minuend is returned unchanged against a finite
subtrahend, and a finite minuend with an infinite subtrahend returns the
negated subtrahend. -/
theorem c6_sub_infinite (a b : ExtFraction) :
    (a.is_infinite = true → b.is_infinite = true → a.numerator = b.numerator →
      ExtFraction.sub a b = ExtFraction.nan) ∧
    (a.is_infinite = true → b.is_infinite = true → a.numerator ≠ b.numerator →
      ExtFraction.sub a b = a) ∧
    (a.is_infinite = true → b.is_nan = false → b.is_infinite = false →
      ExtFraction.sub a b = a) ∧
    (a.is_nan = false → a.is_infinite = false → b.is_infinite = true →
      ExtFraction.sub a b = ExtFraction.neg b) := by
  refine ⟨fun ha hb he => ?_, fun ha hb hne => ?_, fun ha hbn hbi => ?_,
    fun han hai hb => ?_⟩
  · simp [ExtFraction.sub, not_nan_of_infinite a ha, not_nan_of_infinite b hb,
      ha, hb, he]
  · simp [ExtFraction.sub, not_nan_of_infinite a ha, not_nan_of_infinite b hb,
      ha, hb, hne]
  · simp [ExtFraction.sub, not_nan_of_infinite a ha, hbn, ha, hbi]
  · simp [ExtFraction.sub, han, hai, not_nan_of_infinite b hb, hb]

/-- C6 witness: the amended rules evaluated on concrete operands. -/
theorem c6_witness :
    ExtFraction.sub (ExtFraction.new 1 0) (ExtFraction.new 1 0) =
      ExtFraction.nan ∧
    ExtFraction.sub (ExtFraction.new (-1) 0) (ExtFraction.new 1 0) =
      ExtFraction.new (-1) 0 ∧
    ExtFraction.sub (ExtFraction.new 1 0) (ExtFraction.new 2 3) =
      ExtFraction.new 1 0 ∧
    ExtFraction.sub (ExtFraction.new 2 3) (ExtFraction.new 1 0) =
      ExtFraction.neg (ExtFraction.new 1 0) :=
  ⟨(c6_sub_infinite (ExtFraction.new 1 0) (ExtFraction.new 1 0)).1
      (by decide) (by decide) (by decide),
   (c6_sub_infinite (ExtFraction.new (-1) 0) (ExtFraction.new 1 0)).2.1
      (by decide) (by decide) (by decide),
   (c6_sub_infinite (ExtFraction.new 1 0) (ExtFraction.new 2 3)).2.2.1
      (by decide) (by decide) (by decide),
   (c6_sub_infinite (ExtFraction.new 2 3) (ExtFraction.new 1 0)).2.2.2
      (by decide) (by decide) (by decide)⟩

/-- C7: any comparison involving a NaN operand: equality is false and
`partial_cmp` is `None`; two infinite operands (with the legal encodings
numerator = 1 or -1) are equal exactly when their numerators, i.e. their
signs, agree. -/
theorem c7_nan_unordered (a b : ExtFraction) :
    ((a.is_nan = true ∨ b.is_nan = true) →
      ExtFraction.eqb a b = false ∧ ExtFraction.pcmp a b = none) ∧
    (a.is_infinite = true → b.is_infinite = true →
      (a.numerator = 1 ∨ a.numerator = -1) →
      (b.numerator = 1 ∨ b.numerator = -1) →
      (ExtFraction.eqb a b = true ↔ a.numerator = b.numerator)) := by
  constructor
  · intro h
    have hn : (a.is_nan || b.is_nan) = true := by
      rcases h with h | h <;> simp [h]
    constructor <;> simp [ExtFraction.eqb, ExtFraction.pcmp, hn]
  · intro ha hb _ _
    simp [ExtFraction.eqb, not_nan_of_infinite a ha, not_nan_of_infinite b hb,
      ha, hb]

/-- C7 witness: NaN against itself and a finite value, and the four sign
combinations of two infinities. -/
theorem c7_witness :
    (ExtFraction.eqb ExtFraction.nan ExtFraction.nan = false ∧
      ExtFraction.pcmp ExtFraction.nan ExtFraction.nan = none) ∧
    (ExtFraction.eqb (ExtFraction.new 1 2) ExtFraction.nan = false ∧
      ExtFraction.pcmp (ExtFraction.new 1 2) ExtFraction.nan = none) ∧
    (ExtFraction.eqb (ExtFraction.new 1 0) (ExtFraction.new 1 0) = true ↔
      (ExtFraction.new 1 0).numerator = (ExtFraction.new 1 0).numerator) ∧
    (ExtFraction.eqb (ExtFraction.new 1 0) (ExtFraction.new (-1) 0) = true ↔
      (ExtFraction.new 1 0).numerator = (ExtFraction.new (-1) 0).numerator) :=
  ⟨(c7_nan_unordered ExtFraction.nan ExtFraction.nan).1 (Or.inl (by decide)),
   (c7_nan_unordered (ExtFraction.new 1 2) ExtFraction.nan).1 (Or.inr (by decide)),
   (c7_nan_unordered (ExtFraction.new 1 0) (ExtFraction.new 1 0)).2
      (by decide) (by decide) (Or.inl (by decide)) (Or.inl (by decide)),
   (c7_nan_unordered (ExtFraction.new 1 0) (ExtFraction.new (-1) 0)).2
      (by decide) (by decide) (Or.inl (by decide)) (Or.inr (by decide))⟩

/-- C10: `Ord::cmp` is raw cross-multiplication, so comparing NaN (0/0) with
anything multiplies both sides by 0 and yields `Equal` in both argument
orders, while `eq` is false and `partial_cmp` is `None` on the same pairs. -/
theorem c10_cmp_nan_equal (x : ExtFraction) :
    ExtFraction.cmp ExtFraction.nan x = Ordering.eq ∧
    ExtFraction.cmp x ExtFraction.nan = Ordering.eq ∧
    ExtFraction.eqb ExtFraction.nan x = false ∧
    ExtFraction.eqb x ExtFraction.nan = false ∧
    ExtFraction.pcmp ExtFraction.nan x = none ∧
    ExtFraction.pcmp x ExtFraction.nan = none := by
  refine ⟨?_, ?_, ?_, ?_, ?_, ?_⟩
  · simp only [ExtFraction.cmp, ExtFraction.nan, zero_mul, mul_zero]
    decide
  · simp only [ExtFraction.cmp, ExtFraction.nan, zero_mul, mul_zero]
    decide
  · simp [ExtFraction.eqb, ExtFraction.nan, ExtFraction.is_nan]
  · simp [ExtFraction.eqb, ExtFraction.nan, ExtFraction.is_nan]
  · simp [ExtFraction.pcmp, ExtFraction.nan, ExtFraction.is_nan]
  · simp [ExtFraction.pcmp, ExtFraction.nan, ExtFraction.is_nan]

/-- C10 witness: the NaN comparison rules at the concrete values 3/4 and
+infinity. -/
theorem c10_witness :
    ExtFraction.cmp ExtFraction.nan (ExtFraction.new 3 4) = Ordering.eq ∧
    ExtFraction.cmp (ExtFraction.new 1 0) ExtFraction.nan = Ordering.eq :=
  ⟨(c10_cmp_nan_equal (ExtFraction.new 3 4)).1,
   (c10_cmp_nan_equal (ExtFraction.new 1 0)).2.1⟩

/-- C8: the guard structure of `limit_denominator`: a finite receiver with a
bound below 1 gets the invalid-argument error; NaN and infinite receivers
pass through unchanged for every bound (the special-value test precedes the
bound test); a finite receiver whose denominator already satisfies the bound
is returned unchanged. -/
theorem c8_limit_denominator_guards (f : ExtFraction) (m : Int) :
    (f.is_finite = true → m < 1 →
      f.limit_denominator m = some (Except.error maxDenomErr)) ∧
    (f.is_nan = true ∨ f.is_infinite = true →
      f.limit_denominator m = some (Except.ok f)) ∧
    (0 < f.denominator → f.denominator ≤ m →
      f.limit_denominator m = some (Except.ok f)) := by
  refine ⟨fun hf hm => ?_, fun h => ?_, fun hpos hle => ?_⟩
  · simp only [ExtFraction.is_finite, bne_iff_ne, ne_eq] at hf
    obtain ⟨h1, h2⟩ := not_nan_of_finite f hf
    simp [ExtFraction.limit_denominator, h1, h2, hm]
  · have hn : (f.is_nan || f.is_infinite) = true := by
      rcases h with h | h <;> simp [h]
    simp [ExtFraction.limit_denominator, hn]
  · obtain ⟨h1, h2⟩ := not_nan_of_finite f (by omega)
    have hm : ¬ m < 1 := by omega
    simp [ExtFraction.limit_denominator, h1, h2, hm, hle]

/-- C8 witness: the three guards evaluated on concrete inputs. -/
theorem c8_witness :
    ExtFraction.limit_denominator (ExtFraction.new 1 2) 0 =
      some (Except.error maxDenomErr) ∧
    ExtFraction.limit_denominator ExtFraction.nan (-5) =
      some (Except.ok ExtFraction.nan) ∧
    ExtFraction.limit_denominator (ExtFraction.new 1 0) 0 =
      some (Except.ok (ExtFraction.new 1 0)) ∧
    ExtFraction.limit_denominator (ExtFraction.new 22 7) 10 =
      some (Except.ok (ExtFraction.new 22 7)) :=
  ⟨(c8_limit_denominator_guards (ExtFraction.new 1 2) 0).1 (by decide) (by decide),
   (c8_limit_denominator_guards ExtFraction.nan (-5)).2.1 (Or.inl (by decide)),
   (c8_limit_denominator_guards (ExtFraction.new 1 0) 0).2.1 (Or.inr (by decide)),
   (c8_limit_denominator_guards (ExtFraction.new 22 7) 10).2.2
      (by decide) (by decide)⟩

/-- C2 (code bug): the spec's representation invariant — finite values are
fully reduced with positive denominator — is violated by `from_float`: on
the double 0.5 it produces the unreduced pair (2^52, 2). -/
theorem c2_from_float_breaks_invariant :
    ExtFraction.from_float (FP64.finite halfBits) = ⟨4503599627370496, 2⟩ ∧
    ¬ repInvariant (ExtFraction.from_float (FP64.finite halfBits)) := by
  decide

/-- C4 (code bug): the special float values map to the extended constants as
claimed, but `from_float(0.5)` returns the pair (2^52, 2) — the code never
divides by 2^52 and never reduces — so it is not equal to `new(1,2)`. -/
theorem c4_from_float_half :
    ExtFraction.from_float FP64.nan = ExtFraction.nan ∧
    ExtFraction.from_float (FP64.inf true) = ExtFraction.infinity true ∧
    ExtFraction.from_float (FP64.inf false) = ExtFraction.infinity false ∧
    ExtFraction.from_float (FP64.finite halfBits) = ⟨4503599627370496, 2⟩ ∧
    ExtFraction.eqb (ExtFraction.from_float (FP64.finite halfBits))
      (ExtFraction.new 1 2) = false := by
  decide

lemma reduce_zero (d : Int) (hd : d ≠ 0) : ExtFraction.reduce 0 d = (0, 1) := by
  unfold ExtFraction.reduce
  simp [Int.natAbs_zero, Nat.gcd_zero_left, Nat.zero_div,
    Nat.div_self (Int.natAbs_pos.mpr hd)]

lemma reduce_spec (n d : Int) (hd : d ≠ 0) :
    0 < (ExtFraction.reduce n d).2 ∧
    Nat.gcd (ExtFraction.reduce n d).1.natAbs (ExtFraction.reduce n d).2.natAbs = 1 ∧
    ((ExtFraction.reduce n d).1 < 0 ↔ ((0 < n ∧ d < 0) ∨ (n < 0 ∧ 0 < d))) ∧
    (n = 0 → ExtFraction.reduce n d = (0, 1)) := by
  have hdpos : 0 < d.natAbs := Int.natAbs_pos.mpr hd
  have hg : 0 < Nat.gcd n.natAbs d.natAbs := Nat.gcd_pos_of_pos_right _ hdpos
  have hden : 0 < d.natAbs / Nat.gcd n.natAbs d.natAbs :=
    Nat.div_pos (Nat.le_of_dvd hdpos (Nat.gcd_dvd_right _ _)) hg
  have hcop : Nat.gcd (n.natAbs / Nat.gcd n.natAbs d.natAbs)
      (d.natAbs / Nat.gcd n.natAbs d.natAbs) = 1 :=
    Nat.coprime_div_gcd_div_gcd hg
  have hnum : 0 < n.natAbs / Nat.gcd n.natAbs d.natAbs ↔ n ≠ 0 := by
    constructor
    · intro h hn0
      rw [hn0] at h
      simp at h
    · intro h
      exact Nat.div_pos (Nat.le_of_dvd (Int.natAbs_pos.mpr h) (Nat.gcd_dvd_left _ _)) hg
  refine ⟨?_, ?_, ?_, fun h => by rw [h]; exact reduce_zero d hd⟩
  · unfold ExtFraction.reduce
    by_cases hc : (decide (n < 0) != decide (d < 0)) = true
    · rw [if_pos hc]
      show (0 : Int) < ((d.natAbs / Nat.gcd n.natAbs d.natAbs : Nat) : Int)
      exact_mod_cast hden
    · rw [if_neg hc]
      show (0 : Int) < ((d.natAbs / Nat.gcd n.natAbs d.natAbs : Nat) : Int)
      exact_mod_cast hden
  · unfold ExtFraction.reduce
    by_cases hc : (decide (n < 0) != decide (d < 0)) = true
    · rw [if_pos hc]
      show Nat.gcd (-((n.natAbs / Nat.gcd n.natAbs d.natAbs : Nat) : Int)).natAbs
        ((d.natAbs / Nat.gcd n.natAbs d.natAbs : Nat) : Int).natAbs = 1
      rw [Int.natAbs_neg, Int.natAbs_ofNat, Int.natAbs_ofNat]
      exact hcop
    · rw [if_neg hc]
      show Nat.gcd ((n.natAbs / Nat.gcd n.natAbs d.natAbs : Nat) : Int).natAbs
        ((d.natAbs / Nat.gcd n.natAbs d.natAbs : Nat) : Int).natAbs = 1
      rw [Int.natAbs_ofNat, Int.natAbs_ofNat]
      exact hcop
  · have hc' : (decide (n < 0) != decide (d < 0)) = true ↔ ¬ (n < 0 ↔ d < 0) := by
      simp [bne_iff_ne, decide_eq_decide]
    unfold ExtFraction.reduce
    by_cases hc : (decide (n < 0) != decide (d < 0)) = true
    · rw [if_pos hc]
      have hdiff := hc'.mp hc
      show -((n.natAbs / Nat.gcd n.natAbs d.natAbs : Nat) : Int) < 0 ↔ _
      rw [neg_lt_zero, Int.natCast_pos, hnum]
      omega
    · rw [if_neg hc]
      have hsame : (n < 0 ↔ d < 0) := by
        by_contra h
        exact hc (hc'.mpr h)
      show ((n.natAbs / Nat.gcd n.natAbs d.natAbs : Nat) : Int) < 0 ↔ _
      have hge : (0 : Int) ≤ ((n.natAbs / Nat.gcd n.natAbs d.natAbs : Nat) : Int) :=
        Int.ofNat_nonneg _
      omega

/-- C3: `new(n, d)` with nonzero `d` produces a fully reduced fraction with
positive denominator whose numerator is negative exactly when `n` and `d`
carry opposite (strict) signs; a zero numerator reduces to 0/1. -/
theorem c3_new_canonical (n d : Int) (hd : d ≠ 0) :
    0 < (ExtFraction.new n d).denominator ∧
    Nat.gcd (ExtFraction.new n d).numerator.natAbs
      (ExtFraction.new n d).denominator.natAbs = 1 ∧
    ((ExtFraction.new n d).numerator < 0 ↔ ((0 < n ∧ d < 0) ∨ (n < 0 ∧ 0 < d))) ∧
    (n = 0 → ExtFraction.new n d = ⟨0, 1⟩) := by
  obtain ⟨h1, h2, h3, h4⟩ := reduce_spec n d hd
  rw [ExtFraction.new, if_neg hd]
  exact ⟨h1, h2, h3, fun h => by rw [h4 h]⟩

/-- C3 witness: `new(-6, 4)` is the reduced fraction -3/2 with a negative
numerator, and `new(0, -5)` is 0/1. -/
theorem c3_witness :
    (0 < (ExtFraction.new (-6) 4).denominator ∧
      Nat.gcd (ExtFraction.new (-6) 4).numerator.natAbs
        (ExtFraction.new (-6) 4).denominator.natAbs = 1 ∧
      ((ExtFraction.new (-6) 4).numerator < 0 ↔
        ((0 < (-6 : Int) ∧ (4 : Int) < 0) ∨ ((-6 : Int) < 0 ∧ (0 : Int) < 4))) ∧
      ((-6 : Int) = 0 → ExtFraction.new (-6) 4 = ⟨0, 1⟩)) ∧
    ExtFraction.new 0 (-5) = ⟨0, 1⟩ :=
  ⟨c3_new_canonical (-6) 4 (by decide),
   (c3_new_canonical 0 (-5) (by decide)).2.2.2 rfl⟩

lemma reduce_of_canonical (num den : Int) (hden : 0 < den)
    (hcop : Nat.gcd num.natAbs den.natAbs = 1) :
    ExtFraction.reduce num den = (num, den) := by
  have hdneg : decide (den < 0) = false := by
    simp [not_lt.mpr (le_of_lt hden)]
  have hdnat : ((den.natAbs : Nat) : Int) = den := Int.natAbs_of_nonneg (le_of_lt hden)
  unfold ExtFraction.reduce
  simp only [hcop, Nat.div_one, hdneg]
  by_cases hn : num < 0
  · have : decide (num < 0) = true := by simp [hn]
    rw [this]
    show (-((num.natAbs : Nat) : Int), ((den.natAbs : Nat) : Int)) = (num, den)
    rw [Int.ofNat_natAbs_of_nonpos (le_of_lt hn), neg_neg, hdnat]
  · have : decide (num < 0) = false := by simp [hn]
    rw [this]
    show (((num.natAbs : Nat) : Int), ((den.natAbs : Nat) : Int)) = (num, den)
    rw [Int.natAbs_of_nonneg (not_lt.mp hn), hdnat]

lemma new_of_canonical (f : ExtFraction) (hden : 0 < f.denominator)
    (hcop : Nat.gcd f.numerator.natAbs f.denominator.natAbs = 1) :
    ExtFraction.new f.numerator f.denominator = f := by
  rw [ExtFraction.new, if_neg (by omega : f.denominator ≠ 0)]
  show (⟨(ExtFraction.reduce f.numerator f.denominator).1,
    (ExtFraction.reduce f.numerator f.denominator).2⟩ : ExtFraction) = f
  rw [reduce_of_canonical f.numerator f.denominator hden hcop]

/-- The decimal digit character for a value below 10. -/
def digitChar (n : Nat) : Char := Char.ofNat (48 + n)

/-- Decimal rendering of a `Nat`, most significant digit first.  The fuel
argument (always called with `n + 1`, far more than the digit count) makes
the recursion structural so that renderings compute inside the kernel. -/
def natToCharsAux : Nat → Nat → List Char
  | 0, _ => []
  | fuel + 1, n =>
    if n < 10 then [digitChar n]
    else natToCharsAux fuel (n / 10) ++ [digitChar (n % 10)]

/-- Models the decimal rendering of a nonnegative `i128` (Rust `Display`). -/
def natToChars (n : Nat) : List Char := natToCharsAux (n + 1) n

/-- Models the decimal rendering of an `i128` (Rust `Display` for `i128`):
a minus sign followed by the digits of the absolute value. -/
def intToChars (n : Int) : List Char :=
  if n < 0 then '-' :: natToChars n.natAbs else natToChars n.natAbs

/-- Digit-accumulating core of `str::parse`: consumes decimal digits and
fails on any other character. -/
def parseNatAux : List Char → Nat → Option Nat
  | [], acc => some acc
  | c :: cs, acc =>
    if c.isDigit then parseNatAux cs (acc * 10 + (c.toNat - 48)) else none

/-- An unsigned decimal literal: nonempty all-digit text. -/
def parseNat (cs : List Char) : Option Nat :=
  if cs.isEmpty then none else parseNatAux cs 0

/-- Models `str::parse::<i128>` (without the width check, matching the
unbounded integer model): an optional sign followed by at least one
digit. -/
def parseInt (cs : List Char) : Option Int :=
  match cs with
  | [] => none
  | c :: rest =>
    if c = '-' then (parseNat rest).map (fun v => -((v : Nat) : Int))
    else if c = '+' then (parseNat rest).map (fun v => ((v : Nat) : Int))
    else (parseNat cs).map (fun v => ((v : Nat) : Int))

/-- Models `str::to_lowercase` on the ASCII range (the only characters the
claims exercise). -/
def lowerChar (c : Char) : Char :=
  if 'A' ≤ c ∧ c ≤ 'Z' then Char.ofNat (c.toNat + 32) else c

/-- Lowercasing a character list. -/
def toLowerList (s : List Char) : List Char := s.map lowerChar

/-- Models `str::trim`: strip whitespace from both ends. -/
def trimChars (s : List Char) : List Char :=
  ((s.dropWhile Char.isWhitespace).reverse.dropWhile Char.isWhitespace).reverse

/-- Models `str::split(sep)` collected into a `Vec`: always at least one
part; a separator at either end produces an empty part there. -/
def splitOnChar (sep : Char) : List Char → List (List Char)
  | [] => [[]]
  | c :: rest =>
    match splitOnChar sep rest with
    | [] => [[]]
    | p :: ps => if c = sep then [] :: p :: ps else (c :: p) :: ps

/-- Parse-error message for a `/`-count other than two. -/
def invalidFractionErr : String := "Invalid fraction format"

/-- Parse-error message for a bad numerator literal. -/
def invalidNumeratorErr : String := "Invalid numerator"

/-- Parse-error message for a bad denominator literal. -/
def invalidDenominatorErr : String := "Invalid denominator"

/-- Parse-error message for a bad bare-integer literal. -/
def invalidIntegerErr : String := "Invalid integer"

/-- Marker for the one branch outside this embedding: a string containing
`.` but no `/` is parsed by Rust as an IEEE-754 `f64` and routed through
`from_float`.  That parse is floating-point behaviour; no claim reaches
this branch (`format` never emits a dot), so the branch is marked rather
than modelled. -/
def floatBranchMarker : String := "float literal branch not modelled"

namespace ExtFraction

/-- Models `impl fmt::Display for ExtFraction`. -/
def format (f : ExtFraction) : List Char :=
  if f.denominator = 0 then
    if f.numerator = 0 then ['n', 'a', 'n']
    else if f.numerator > 0 then ['i', 'n', 'f']
    else ['-', 'i', 'n', 'f']
  else if f.denominator = 1 then intToChars f.numerator
  else intToChars f.numerator ++ '/' :: intToChars f.denominator

/-- Models `ExtFraction::from_str`: trim and lowercase, recognise the
special words, then dispatch on `/` (fraction), `.` (float literal, not
modelled — see `floatBranchMarker`) or a bare integer. -/
def from_str (s : List Char) : Except String ExtFraction :=
  let t := toLowerList (trimChars s)
  if t = ['i', 'n', 'f'] ∨ t = ['+', 'i', 'n', 'f']
      ∨ t = ['i', 'n', 'f', 'i', 'n', 'i', 't', 'y']
      ∨ t = ['+', 'i', 'n', 'f', 'i', 'n', 'i', 't', 'y'] then
    Except.ok (infinity true)
  else if t = ['-', 'i', 'n', 'f']
      ∨ t = ['-', 'i', 'n', 'f', 'i', 'n', 'i', 't', 'y'] then
    Except.ok (infinity false)
  else if t = ['n', 'a', 'n'] then Except.ok nan
  else if '/' ∈ t then
    match splitOnChar '/' t with
    | [a, b] =>
      match parseInt a with
      | none => Except.error invalidNumeratorErr
      | some na =>
        match parseInt b with
        | none => Except.error invalidDenominatorErr
        | some da => Except.ok (new na da)
    | _ => Except.error invalidFractionErr
  else if '.' ∈ t then Except.error floatBranchMarker
  else
    match parseInt t with
    | none => Except.error invalidIntegerErr
    | some v => Except.ok (from_integer v)

end ExtFraction

lemma digitChar_facts : ∀ k, k < 10 →
    (digitChar k).isDigit = true ∧ (digitChar k).toNat - 48 = k ∧
    lowerChar (digitChar k) = digitChar k ∧
    (digitChar k).isWhitespace = false ∧
    digitChar k ≠ '-' ∧ digitChar k ≠ '+' ∧ digitChar k ≠ '/' ∧
    digitChar k ≠ '.' ∧ digitChar k ≠ 'i' ∧ digitChar k ≠ 'n' ∧
    digitChar k ≠ '+' := by decide

lemma natToCharsAux_shape : ∀ fuel n, n < fuel →
    ∀ c ∈ natToCharsAux fuel n, ∃ k, k < 10 ∧ c = digitChar k := by
  intro fuel
  induction fuel with
  | zero => intro n hn; omega
  | succ fuel ih =>
    intro n hn c hc
    rw [natToCharsAux] at hc
    by_cases h10 : n < 10
    · rw [if_pos h10] at hc
      simp only [List.mem_singleton] at hc
      exact ⟨n, h10, hc⟩
    · rw [if_neg h10] at hc
      rcases List.mem_append.mp hc with h | h
      · exact ih (n / 10) (by omega) c h
      · simp only [List.mem_singleton] at h
        exact ⟨n % 10, Nat.mod_lt _ (by norm_num), h⟩

lemma natToCharsAux_ne_nil : ∀ fuel n, n < fuel → natToCharsAux fuel n ≠ [] := by
  intro fuel
  induction fuel with
  | zero => intro n hn; omega
  | succ fuel ih =>
    intro n hn
    rw [natToCharsAux]
    by_cases h10 : n < 10
    · rw [if_pos h10]; simp
    · rw [if_neg h10]; simp

lemma parseNatAux_append (xs ys : List Char) (acc : Nat) :
    parseNatAux (xs ++ ys) acc =
      (parseNatAux xs acc).bind (fun a => parseNatAux ys a) := by
  induction xs generalizing acc with
  | nil => simp [parseNatAux]
  | cons c cs ih =>
    rw [List.cons_append, parseNatAux, parseNatAux]
    by_cases hd : c.isDigit
    · rw [if_pos hd, if_pos hd, ih]
    · rw [if_neg hd, if_neg hd]
      rfl

lemma parseNatAux_natToCharsAux : ∀ fuel n acc, n < fuel →
    parseNatAux (natToCharsAux fuel n) acc =
      some (acc * 10 ^ (natToCharsAux fuel n).length + n) := by
  intro fuel
  induction fuel with
  | zero => intro n acc hn; omega
  | succ fuel ih =>
    intro n acc hn
    rw [natToCharsAux]
    by_cases h10 : n < 10
    · rw [if_pos h10]
      have hd := (digitChar_facts n h10).1
      have hv := (digitChar_facts n h10).2.1
      rw [parseNatAux, if_pos hd, parseNatAux, hv]
      simp [pow_one]
    · rw [if_neg h10]
      have hlen : (natToCharsAux fuel (n / 10) ++ [digitChar (n % 10)]).length =
          (natToCharsAux fuel (n / 10)).length + 1 := by
        simp
      rw [parseNatAux_append, ih (n / 10) acc (by omega)]
      have hd := (digitChar_facts (n % 10) (Nat.mod_lt _ (by norm_num))).1
      have hv := (digitChar_facts (n % 10) (Nat.mod_lt _ (by norm_num))).2.1
      rw [Option.some_bind, parseNatAux, if_pos hd, parseNatAux, hv, hlen]
      congr 1
      have hdm : 10 * (n / 10) + n % 10 = n := Nat.div_add_mod n 10
      calc (acc * 10 ^ (natToCharsAux fuel (n / 10)).length + n / 10) * 10 + n % 10
          = acc * (10 ^ (natToCharsAux fuel (n / 10)).length * 10) +
              (10 * (n / 10) + n % 10) := by ring
        _ = acc * 10 ^ ((natToCharsAux fuel (n / 10)).length + 1) + n := by
              rw [← pow_succ, hdm]

lemma parseNat_natToChars (n : Nat) : parseNat (natToChars n) = some n := by
  rw [parseNat, natToChars, if_neg]
  · rw [parseNatAux_natToCharsAux (n + 1) n 0 (Nat.lt_succ_self n)]
    simp
  · simp only [List.isEmpty_iff]
    exact natToCharsAux_ne_nil (n + 1) n (Nat.lt_succ_self n)

lemma natToChars_shape (n : Nat) :
    ∀ c ∈ natToChars n, ∃ k, k < 10 ∧ c = digitChar k :=
  natToCharsAux_shape (n + 1) n (Nat.lt_succ_self n)

lemma natToChars_ne_nil (n : Nat) : natToChars n ≠ [] :=
  natToCharsAux_ne_nil (n + 1) n (Nat.lt_succ_self n)

lemma natToChars_head (n : Nat) :
    ∃ k rest, k < 10 ∧ natToChars n = digitChar k :: rest := by
  cases h : natToChars n with
  | nil => exact absurd h (natToChars_ne_nil n)
  | cons c rest =>
    obtain ⟨k, hk, hck⟩ := natToChars_shape n c (by rw [h]; exact List.mem_cons_self c rest)
    exact ⟨k, rest, hk, by rw [hck]⟩

lemma parseInt_intToChars (n : Int) : parseInt (intToChars n) = some n := by
  by_cases hn : n < 0
  · rw [intToChars, if_pos hn, parseInt, if_pos rfl, parseNat_natToChars]
    rw [Option.map_some']
    congr 1
    have := Int.ofNat_natAbs_of_nonpos (le_of_lt hn)
    omega
  · rw [intToChars, if_neg hn]
    obtain ⟨k, rest, hk, hshape⟩ := natToChars_head n.natAbs
    rw [hshape, parseInt,
      if_neg (digitChar_facts k hk).2.2.2.2.1,
      if_neg (digitChar_facts k hk).2.2.2.2.2.1,
      ← hshape, parseNat_natToChars]
    rw [Option.map_some']
    congr 1
    exact Int.natAbs_of_nonneg (not_lt.mp hn)

lemma intToChars_chars (n : Int) :
    ∀ c ∈ intToChars n, c = '-' ∨ ∃ k, k < 10 ∧ c = digitChar k := by
  intro c hc
  rw [intToChars] at hc
  by_cases hn : n < 0
  · rw [if_pos hn] at hc
    rcases List.mem_cons.mp hc with h | h
    · exact Or.inl h
    · exact Or.inr (natToChars_shape n.natAbs c h)
  · rw [if_neg hn] at hc
    exact Or.inr (natToChars_shape n.natAbs c hc)

lemma intToChars_clean (n : Int) :
    ∀ c ∈ intToChars n, c.isWhitespace = false ∧ lowerChar c = c ∧
      c ≠ '/' ∧ c ≠ '.' := by
  intro c hc
  rcases intToChars_chars n c hc with h | ⟨k, hk, h⟩
  · rw [h]; refine ⟨by decide, by decide, by decide, by decide⟩
  · rw [h]
    exact ⟨(digitChar_facts k hk).2.2.2.1, (digitChar_facts k hk).2.2.1,
      (digitChar_facts k hk).2.2.2.2.2.2.1, (digitChar_facts k hk).2.2.2.2.2.2.2.1⟩

lemma dropWhile_eq_self_of_all {p : Char → Bool} (l : List Char)
    (h : ∀ c ∈ l, p c = false) : l.dropWhile p = l := by
  cases l with
  | nil => rfl
  | cons c cs =>
    rw [List.dropWhile_cons, h c (List.mem_cons_self c cs)]
    simp

lemma trimChars_eq_self (l : List Char) (h : ∀ c ∈ l, c.isWhitespace = false) :
    trimChars l = l := by
  rw [trimChars, dropWhile_eq_self_of_all l h,
    dropWhile_eq_self_of_all l.reverse (fun c hc => h c (List.mem_reverse.mp hc)),
    List.reverse_reverse]

lemma toLowerList_eq_self (l : List Char) (h : ∀ c ∈ l, lowerChar c = c) :
    toLowerList l = l := by
  rw [toLowerList]
  induction l with
  | nil => rfl
  | cons c cs ih =>
    rw [List.map_cons, h c (List.mem_cons_self c cs),
      ih (fun x hx => h x (List.mem_cons_of_mem c hx))]

lemma splitOnChar_ne_nil (sep : Char) (l : List Char) : splitOnChar sep l ≠ [] := by
  cases l with
  | nil => simp [splitOnChar]
  | cons c rest =>
    rw [splitOnChar]
    cases h : splitOnChar sep rest with
    | nil => simp
    | cons p ps =>
      by_cases hc : c = sep
      · simp [hc]
      · simp [hc]

lemma splitOnChar_of_not_mem (sep : Char) (l : List Char) (h : sep ∉ l) :
    splitOnChar sep l = [l] := by
  induction l with
  | nil => rfl
  | cons c rest ih =>
    have hc : c ≠ sep := fun e => h (by rw [e]; exact List.mem_cons_self sep rest)
    have hrest : sep ∉ rest := fun e => h (List.mem_cons_of_mem c e)
    rw [splitOnChar, ih hrest]
    simp [hc]

lemma splitOnChar_append (sep : Char) (xs ys : List Char) (h : sep ∉ xs) :
    splitOnChar sep (xs ++ sep :: ys) = xs :: splitOnChar sep ys := by
  induction xs with
  | nil =>
    rw [List.nil_append, splitOnChar]
    cases hys : splitOnChar sep ys with
    | nil => exact absurd hys (splitOnChar_ne_nil sep ys)
    | cons p ps => simp
  | cons c rest ih =>
    have hc : c ≠ sep := fun e => h (by rw [e]; exact List.mem_cons_self sep rest)
    have hrest : sep ∉ rest := fun e => h (List.mem_cons_of_mem c e)
    rw [List.cons_append, splitOnChar, ih hrest]
    simp [hc]

lemma intToChars_ne_special (n : Int) :
    intToChars n ≠ ['i', 'n', 'f'] ∧ intToChars n ≠ ['+', 'i', 'n', 'f'] ∧
    intToChars n ≠ ['i', 'n', 'f', 'i', 'n', 'i', 't', 'y'] ∧
    intToChars n ≠ ['+', 'i', 'n', 'f', 'i', 'n', 'i', 't', 'y'] ∧
    intToChars n ≠ ['-', 'i', 'n', 'f'] ∧
    intToChars n ≠ ['-', 'i', 'n', 'f', 'i', 'n', 'i', 't', 'y'] ∧
    intToChars n ≠ ['n', 'a', 'n'] := by
  by_cases hn : n < 0
  · rw [intToChars, if_pos hn]
    obtain ⟨k, rest, hk, hsh⟩ := natToChars_head n.natAbs
    rw [hsh]
    obtain ⟨-, -, -, -, -, -, -, -, hki, -, -⟩ := digitChar_facts k hk
    refine ⟨?_, ?_, ?_, ?_, ?_, ?_, ?_⟩ <;> intro h
    · injection h with h1 _; exact absurd h1 (by decide)
    · injection h with h1 _; exact absurd h1 (by decide)
    · injection h with h1 _; exact absurd h1 (by decide)
    · injection h with h1 _; exact absurd h1 (by decide)
    · injection h with _ h2; injection h2 with h3 _; exact hki h3
    · injection h with _ h2; injection h2 with h3 _; exact hki h3
    · injection h with h1 _; exact absurd h1 (by decide)
  · rw [intToChars, if_neg hn]
    obtain ⟨k, rest, hk, hsh⟩ := natToChars_head n.natAbs
    rw [hsh]
    obtain ⟨-, -, -, -, hkm, hkp, -, -, hki, hkn, -⟩ := digitChar_facts k hk
    refine ⟨?_, ?_, ?_, ?_, ?_, ?_, ?_⟩ <;> intro h
    · injection h with h1 _; exact hki h1
    · injection h with h1 _; exact hkp h1
    · injection h with h1 _; exact hki h1
    · injection h with h1 _; exact hkp h1
    · injection h with h1 _; exact hkm h1
    · injection h with h1 _; exact hkm h1
    · injection h with h1 _; exact hkn h1

/-- C9: for every finite fraction in canonical form (positive denominator,
fully reduced), parsing the formatted text returns exactly the fraction:
a denominator-1 value renders as the bare numerator and parses through the
integer branch, any other finite value renders as numerator/denominator and
parses through the fraction branch (where `new` on canonical input is the
identity); moreover equality on the result holds in the `==` sense, and
concretely parsing "3/4" and formatting 3/4 round-trip. -/
theorem c9_format_roundtrip (f : ExtFraction) (hden : 0 < f.denominator)
    (hcop : Nat.gcd f.numerator.natAbs f.denominator.natAbs = 1) :
    ExtFraction.from_str (ExtFraction.format f) = Except.ok f ∧
    ExtFraction.eqb f f = true ∧
    ExtFraction.from_str ['3', '/', '4'] = Except.ok ⟨3, 4⟩ ∧
    ExtFraction.format ⟨3, 4⟩ = ['3', '/', '4'] := by
  have hne : f.denominator ≠ 0 := by omega
  have heqb : ExtFraction.eqb f f = true := by
    obtain ⟨h1, h2⟩ := not_nan_of_finite f hne
    simp [ExtFraction.eqb, h1, h2]
  refine ⟨?_, heqb, rfl, rfl⟩
  rw [ExtFraction.format, if_neg hne]
  by_cases h1 : f.denominator = 1
  · rw [if_pos h1]
    have hclean := intToChars_clean f.numerator
    have htrim : trimChars (intToChars f.numerator) = intToChars f.numerator :=
      trimChars_eq_self _ (fun c hc => (hclean c hc).1)
    have hlower : toLowerList (intToChars f.numerator) = intToChars f.numerator :=
      toLowerList_eq_self _ (fun c hc => (hclean c hc).2.1)
    obtain ⟨hs1, hs2, hs3, hs4, hs5, hs6, hs7⟩ := intToChars_ne_special f.numerator
    have hslash : '/' ∉ intToChars f.numerator :=
      fun hm => ((hclean _ hm).2.2.1) rfl
    have hdot : '.' ∉ intToChars f.numerator :=
      fun hm => ((hclean _ hm).2.2.2) rfl
    simp only [ExtFraction.from_str, htrim, hlower]
    rw [if_neg (fun h => h.elim hs1 (fun h => h.elim hs2 (fun h => h.elim hs3 hs4))),
      if_neg (fun h => h.elim hs5 hs6),
      if_neg hs7, if_neg hslash, if_neg hdot, parseInt_intToChars]
    show Except.ok (ExtFraction.from_integer f.numerator) = Except.ok f
    have : ExtFraction.from_integer f.numerator = f := by
      rw [ExtFraction.from_integer, ← h1]
    rw [this]
  · rw [if_neg h1]
    have hcleanA := intToChars_clean f.numerator
    have hcleanB := intToChars_clean f.denominator
    have hall : ∀ c ∈ intToChars f.numerator ++ '/' :: intToChars f.denominator,
        c.isWhitespace = false ∧ lowerChar c = c := by
      intro c hc
      rcases List.mem_append.mp hc with h | h
      · exact ⟨(hcleanA c h).1, (hcleanA c h).2.1⟩
      · rcases List.mem_cons.mp h with h | h
        · rw [h]; exact ⟨by decide, by decide⟩
        · exact ⟨(hcleanB c h).1, (hcleanB c h).2.1⟩
    have htrim := trimChars_eq_self _ (fun c hc => (hall c hc).1)
    have hlower := toLowerList_eq_self _ (fun c hc => (hall c hc).2)
    have hmem : '/' ∈ intToChars f.numerator ++ '/' :: intToChars f.denominator :=
      List.mem_append.mpr (Or.inr (List.mem_cons_self _ _))
    simp only [ExtFraction.from_str, htrim, hlower]
    rw [if_neg (by rintro (h | h | h | h) <;> rw [h] at hmem <;>
          exact absurd hmem (by decide)),
      if_neg (by rintro (h | h) <;> rw [h] at hmem <;>
          exact absurd hmem (by decide)),
      if_neg (by intro h; rw [h] at hmem; exact absurd hmem (by decide)),
      if_pos hmem,
      splitOnChar_append '/' _ _ (fun hm => ((hcleanA _ hm).2.2.1) rfl),
      splitOnChar_of_not_mem '/' _ (fun hm => ((hcleanB _ hm).2.2.1) rfl)]
    show (match parseInt (intToChars f.numerator) with
      | none => Except.error invalidNumeratorErr
      | some na =>
        match parseInt (intToChars f.denominator) with
        | none => Except.error invalidDenominatorErr
        | some da => Except.ok (ExtFraction.new na da)) = Except.ok f
    rw [parseInt_intToChars, parseInt_intToChars]
    exact congrArg Except.ok (new_of_canonical f hden hcop)

/-- C9 witness: the round trip evaluated on the canonical fractions -22/7
and 5/1. -/
theorem c9_witness :
    ExtFraction.from_str (ExtFraction.format ⟨-22, 7⟩) = Except.ok ⟨-22, 7⟩ ∧
    ExtFraction.from_str (ExtFraction.format ⟨5, 1⟩) = Except.ok ⟨5, 1⟩ :=
  ⟨(c9_format_roundtrip ⟨-22, 7⟩ (by decide) (by decide)).1,
   (c9_format_roundtrip ⟨5, 1⟩ (by decide) (by decide)).1⟩

/-- C1 counterexample: on the canonical finite fraction -1/2 with bound 1
(denominator 2 exceeds the bound, bound at least 1) the Rust loop reaches a
zero remainder after two iterations — truncating division mishandles the
negative numerator — and the third iteration divides by zero, a panic
(modelled as `none`).  No best approximation (or any value) is returned. -/
theorem c1_counterexample :
    ExtFraction.limit_denominator ⟨-1, 2⟩ 1 = none := rfl

/-- num/den is a closest rational approximation to N/D among all fractions
with (positive) denominator at most M. -/
def isBestApprox (N D M num den : Int) : Prop :=
  1 ≤ den ∧ den ≤ M ∧
  ∀ p q : Int, 0 < q → q ≤ M →
    |(N : ℚ) / (D : ℚ) - (num : ℚ) / (den : ℚ)| ≤
      |(N : ℚ) / (D : ℚ) - (p : ℚ) / (q : ℚ)|


lemma best_in_gap (a1 b1 a2 b2 N D p q M : Int)
    (hb1 : 0 < b1) (hb2 : 0 < b2) (hq : 0 < q) (hqM : q ≤ M)
    (hMb : M < b1 + b2) (hdet : a2 * b1 - a1 * b2 = 1) :
    min ((N : ℚ) / D - (a1 : ℚ) / b1) ((a2 : ℚ) / b2 - (N : ℚ) / D) ≤
      |(N : ℚ) / D - (p : ℚ) / q| := by
  have hb1Q : (0 : ℚ) < (b1 : ℚ) := by exact_mod_cast hb1
  have hb2Q : (0 : ℚ) < (b2 : ℚ) := by exact_mod_cast hb2
  have hqQ : (0 : ℚ) < (q : ℚ) := by exact_mod_cast hq
  rcases le_or_lt ((p : ℚ) / q) ((a1 : ℚ) / b1) with hy | hy
  · calc min ((N : ℚ) / D - (a1 : ℚ) / b1) ((a2 : ℚ) / b2 - (N : ℚ) / D)
        ≤ (N : ℚ) / D - (a1 : ℚ) / b1 := min_le_left _ _
      _ ≤ (N : ℚ) / D - (p : ℚ) / q := by linarith
      _ ≤ |(N : ℚ) / D - (p : ℚ) / q| := le_abs_self _
  · rcases le_or_lt ((a2 : ℚ) / b2) ((p : ℚ) / q) with hy2 | hy2
    · calc min ((N : ℚ) / D - (a1 : ℚ) / b1) ((a2 : ℚ) / b2 - (N : ℚ) / D)
          ≤ (a2 : ℚ) / b2 - (N : ℚ) / D := min_le_right _ _
        _ ≤ (p : ℚ) / q - (N : ℚ) / D := by linarith
        _ ≤ |(N : ℚ) / D - (p : ℚ) / q| := by
            rw [abs_sub_comm]
            exact le_abs_self _
    · exfalso
      have hyc1 : (1 : ℚ) / ((q : ℚ) * b1) ≤ (p : ℚ) / q - (a1 : ℚ) / b1 := by
        have hrepr : (p : ℚ) / q - (a1 : ℚ) / b1 =
            ((p * b1 - a1 * q : Int) : ℚ) / (((q * b1 : Int)) : ℚ) := by
          push_cast
          field_simp
          ring
        have hposden : (0 : ℚ) < ((q * b1 : Int) : ℚ) := by
          exact_mod_cast mul_pos hq hb1
        have hnum : (0 : Int) < p * b1 - a1 * q := by
          by_contra hcon
          push_neg at hcon
          have hle : ((p * b1 - a1 * q : Int) : ℚ) ≤ 0 := by exact_mod_cast hcon
          have : (p : ℚ) / q - (a1 : ℚ) / b1 ≤ 0 := by
            rw [hrepr]
            exact div_nonpos_of_nonpos_of_nonneg hle (le_of_lt hposden)
          linarith
        have hnum1 : (1 : ℚ) ≤ ((p * b1 - a1 * q : Int) : ℚ) := by
          exact_mod_cast hnum
        have hcast : ((q * b1 : Int) : ℚ) = (q : ℚ) * b1 := by push_cast; ring
        rw [hrepr, hcast]
        rw [hcast] at hposden
        exact (div_le_div_iff_of_pos_right hposden).mpr hnum1
      have hc2y : (1 : ℚ) / ((q : ℚ) * b2) ≤ (a2 : ℚ) / b2 - (p : ℚ) / q := by
        have hrepr : (a2 : ℚ) / b2 - (p : ℚ) / q =
            ((a2 * q - p * b2 : Int) : ℚ) / (((q * b2 : Int)) : ℚ) := by
          push_cast
          field_simp
          ring
        have hposden : (0 : ℚ) < ((q * b2 : Int) : ℚ) := by
          exact_mod_cast mul_pos hq hb2
        have hnum : (0 : Int) < a2 * q - p * b2 := by
          by_contra hcon
          push_neg at hcon
          have hle : ((a2 * q - p * b2 : Int) : ℚ) ≤ 0 := by exact_mod_cast hcon
          have : (a2 : ℚ) / b2 - (p : ℚ) / q ≤ 0 := by
            rw [hrepr]
            exact div_nonpos_of_nonpos_of_nonneg hle (le_of_lt hposden)
          linarith
        have hnum1 : (1 : ℚ) ≤ ((a2 * q - p * b2 : Int) : ℚ) := by
          exact_mod_cast hnum
        have hcast : ((q * b2 : Int) : ℚ) = (q : ℚ) * b2 := by push_cast; ring
        rw [hrepr, hcast]
        rw [hcast] at hposden
        exact (div_le_div_iff_of_pos_right hposden).mpr hnum1
      have hgap : (a2 : ℚ) / b2 - (a1 : ℚ) / b1 = 1 / ((b1 : ℚ) * b2) := by
        have hrepr : (a2 : ℚ) / b2 - (a1 : ℚ) / b1 =
            ((a2 * b1 - a1 * b2 : Int) : ℚ) / (((b1 * b2 : Int)) : ℚ) := by
          push_cast
          field_simp
          ring
        rw [hrepr, hdet]
        push_cast
        ring
      have hsum : (1 : ℚ) / ((q : ℚ) * b1) + 1 / ((q : ℚ) * b2) ≤
          1 / ((b1 : ℚ) * b2) := by linarith
      have hcombine : ((b1 : ℚ) + b2) / ((q : ℚ) * b1 * b2) =
          1 / ((q : ℚ) * b1) + 1 / ((q : ℚ) * b2) := by
        field_simp
        ring
      have hle2 : ((b1 : ℚ) + b2) / ((q : ℚ) * b1 * b2) ≤ 1 / ((b1 : ℚ) * b2) := by
        rw [hcombine]
        exact hsum
      have h4 := (div_le_div_iff₀ (by positivity) (by positivity)).mp hle2
      have hfinal : (b1 : ℚ) + b2 ≤ (q : ℚ) := by
        nlinarith [mul_pos hb1Q hb2Q]
      have hMQ : ((M : ℚ)) < (b1 : ℚ) + b2 := by exact_mod_cast hMb
      have hqMQ : ((q : ℚ)) ≤ (M : ℚ) := by exact_mod_cast hqM
      linarith

/-- Invariant of the `limit_denominator` loop for a positive reduced input
N/D, holding at every loop entry after the first iteration: the convergent
matrix reconstructs N/D from the remainder pair, its determinant is a unit,
and all quantities carry the expected signs and bounds. -/
def ldInv (N D M : Int) (st : LDState) : Prop :=
  N = st.p1 * st.n + st.p0 * st.d ∧
  D = st.q1 * st.n + st.q0 * st.d ∧
  (st.p1 * st.q0 - st.p0 * st.q1 = 1 ∨ st.p1 * st.q0 - st.p0 * st.q1 = -1) ∧
  0 ≤ st.p0 ∧ 0 ≤ st.p1 ∧ 0 ≤ st.q0 ∧ st.q0 ≤ st.q1 ∧ 1 ≤ st.q1 ∧
  st.q1 ≤ M ∧ 1 ≤ st.n ∧ 0 ≤ st.d ∧ st.d < st.n

lemma ldInv_d_ne_zero (N D M : Int) (st : LDState) (hinv : ldInv N D M st)
    (hcop : Nat.gcd N.natAbs D.natAbs = 1) (hMD : M < D) : st.d ≠ 0 := by
  intro h0
  obtain ⟨hN, hD, -, -, -, -, -, hq1, hq1M, hn1, -, -⟩ := hinv
  rw [h0, mul_zero, add_zero] at hN hD
  have hdvdN : st.n ∣ N := ⟨st.p1, by rw [hN]; ring⟩
  have hdvdD : st.n ∣ D := ⟨st.q1, by rw [hD]; ring⟩
  have hdvdg : st.n.natAbs ∣ Nat.gcd N.natAbs D.natAbs :=
    Nat.dvd_gcd (Int.natAbs_dvd_natAbs.mpr hdvdN) (Int.natAbs_dvd_natAbs.mpr hdvdD)
  rw [hcop] at hdvdg
  have hn : st.n = 1 := by
    have := Nat.le_of_dvd (by norm_num) hdvdg
    omega
  rw [hn, mul_one] at hD
  omega

lemma ldLoop_spec (N D M : Int) (hcop : Nat.gcd N.natAbs D.natAbs = 1)
    (hMD : M < D) :
    ∀ fuel (st : LDState), ldInv N D M st → st.d.natAbs < fuel →
    ∃ st2, ldLoop M fuel st = some st2 ∧ ldInv N D M st2 ∧
      1 ≤ st2.d ∧ M < st2.q0 + st2.n.tdiv st2.d * st2.q1 := by
  intro fuel
  induction fuel with
  | zero => intro st _ h; omega
  | succ fuel ih =>
    intro st hinv hfuel
    have hd0 : st.d ≠ 0 := ldInv_d_ne_zero N D M st hinv hcop hMD
    obtain ⟨hN, hD, hdet, hp0, hp1, hq0, hq01, hq1, hq1M, hn1, hdge, hdlt⟩ := hinv
    have hd1 : 1 ≤ st.d := by omega
    have htd : st.n.tdiv st.d = st.n / st.d :=
      Int.tdiv_eq_ediv (by omega) (by omega)
    have ha1 : 1 ≤ st.n.tdiv st.d := by
      rw [htd]
      rw [Int.le_ediv_iff_mul_le (by omega)]
      omega
    have hmod0 : 0 ≤ st.n - st.n.tdiv st.d * st.d := by
      rw [htd]
      have := Int.ediv_mul_le st.n (show st.d ≠ 0 by omega)
      omega
    have hmodlt : st.n - st.n.tdiv st.d * st.d < st.d := by
      rw [htd]
      have h5 : st.n % st.d = st.n - st.d * (st.n / st.d) := Int.emod_def st.n st.d
      have h6 : st.n % st.d < st.d := Int.emod_lt_of_pos st.n (by omega)
      have h7 : st.d * (st.n / st.d) = st.n / st.d * st.d := by ring
      omega
    simp only [ldLoop]
    rw [if_neg hd0]
    by_cases hbreak : M < st.q0 + st.n.tdiv st.d * st.q1
    · rw [if_pos hbreak]
      exact ⟨st, rfl, ⟨hN, hD, hdet, hp0, hp1, hq0, hq01, hq1, hq1M, hn1, hdge, hdlt⟩,
        hd1, hbreak⟩
    · rw [if_neg hbreak]
      have hq1a : st.q1 ≤ st.n.tdiv st.d * st.q1 :=
        le_mul_of_one_le_left (by omega) ha1
      have hp1a : 0 ≤ st.n.tdiv st.d * st.p1 :=
        mul_nonneg (by omega) hp1
      refine ih ⟨st.p1, st.q1, st.p0 + st.n.tdiv st.d * st.p1,
          st.q0 + st.n.tdiv st.d * st.q1, st.d, st.n - st.n.tdiv st.d * st.d⟩
        ⟨?_, ?_, ?_, ?_, ?_, ?_, ?_, ?_, ?_, ?_, ?_, ?_⟩ ?_
      · show N = (st.p0 + st.n.tdiv st.d * st.p1) * st.d +
          st.p1 * (st.n - st.n.tdiv st.d * st.d)
        linear_combination hN
      · show D = (st.q0 + st.n.tdiv st.d * st.q1) * st.d +
          st.q1 * (st.n - st.n.tdiv st.d * st.d)
        linear_combination hD
      · show (st.p0 + st.n.tdiv st.d * st.p1) * st.q1 -
            st.p1 * (st.q0 + st.n.tdiv st.d * st.q1) = 1 ∨ _ = -1
        rcases hdet with h | h
        · exact Or.inr (by linear_combination -h)
        · exact Or.inl (by linear_combination -h)
      · exact hp1
      · show 0 ≤ st.p0 + st.n.tdiv st.d * st.p1
        omega
      · exact le_trans hq0 hq01
      · show st.q1 ≤ st.q0 + st.n.tdiv st.d * st.q1
        omega
      · show 1 ≤ st.q0 + st.n.tdiv st.d * st.q1
        omega
      · show st.q0 + st.n.tdiv st.d * st.q1 ≤ M
        omega
      · exact hd1
      · exact hmod0
      · exact hmodlt
      · show (st.n - st.n.tdiv st.d * st.d).natAbs < fuel
        omega

lemma ldChoice_best (N D M p0 q0 p1 q1 nr dr k : Int)
    (hrecN : N = p1 * nr + p0 * dr)
    (hrecD : D = q1 * nr + q0 * dr)
    (hdet : p1 * q0 - p0 * q1 = 1 ∨ p1 * q0 - p0 * q1 = -1)
    (_hp0 : 0 ≤ p0) (_hp1 : 0 ≤ p1) (hq0 : 0 ≤ q0) (hq01 : q0 ≤ q1)
    (hq1 : 1 ≤ q1) (hq1M : q1 ≤ M) (hnr : 1 ≤ nr) (hdr : 1 ≤ dr)
    (hdrnr : dr < nr)
    (hbreak : M < q0 + nr.tdiv dr * q1)
    (hk : k = (M - q0).tdiv q1) :
    (2 * dr * (q0 + k * q1) ≤ D → isBestApprox N D M p1 q1) ∧
    (¬ 2 * dr * (q0 + k * q1) ≤ D →
      isBestApprox N D M (p0 + k * p1) (q0 + k * q1)) := by
  have hq1nr : 0 < q1 * nr := mul_pos (by omega) (by omega)
  have hq0dr : 0 ≤ q0 * dr := mul_nonneg hq0 (by omega)
  have hDpos : 0 < D := by linarith [hrecD]
  have htd : nr.tdiv dr = nr / dr := Int.tdiv_eq_ediv (by omega) (by omega)
  rw [htd] at hbreak
  have ha1 : 1 ≤ nr / dr := by
    rw [Int.le_ediv_iff_mul_le (by omega : (0:Int) < dr)]
    omega
  have hamul : nr / dr * dr ≤ nr := Int.ediv_mul_le nr (by omega)
  have hkt : k = (M - q0) / q1 := by
    rw [hk]
    exact Int.tdiv_eq_ediv (by omega) (by omega)
  have hk0 : 0 ≤ k := by
    rw [hkt]
    exact Int.ediv_nonneg (by omega) (by omega)
  have hkfl1 : k * q1 ≤ M - q0 := by
    rw [hkt]
    exact Int.ediv_mul_le (M - q0) (by omega)
  have hkfl2 : M - q0 < (k + 1) * q1 := by
    rw [hkt]
    exact Int.lt_ediv_add_one_mul_self (M - q0) (by omega)
  have hkq1 : (k + 1) * q1 = k * q1 + q1 := by ring
  have hwM : q0 + k * q1 ≤ M := by omega
  have hMw : M < q0 + k * q1 + q1 := by omega
  have hw1 : 1 ≤ q0 + k * q1 := by
    rcases eq_or_lt_of_le hk0 with h | h
    · rw [← h] at hkfl2 ⊢
      omega
    · have h5 : q1 ≤ k * q1 := le_mul_of_one_le_left (by omega) (by omega)
      omega
  have hka : k < nr / dr := by
    have h5 : k * q1 < nr / dr * q1 := by omega
    exact lt_of_mul_lt_mul_right h5 (by omega)
  have hE2 : dr ≤ nr - k * dr := by
    have h5 : k * dr ≤ (nr / dr - 1) * dr :=
      mul_le_mul_of_nonneg_right (by omega) (by omega)
    have h6 : (nr / dr - 1) * dr = nr / dr * dr - dr := by ring
    omega
  have idD : dr * (q0 + k * q1) + (nr - k * dr) * q1 = D := by
    rw [hrecD]; ring
  have hWpos : (0 : Int) < q0 + k * q1 := by omega
  have hE2pos : (0 : Int) < nr - k * dr := by omega
  have hcond : (2 * dr * (q0 + k * q1) ≤ D) ↔
      (dr * (q0 + k * q1) ≤ (nr - k * dr) * q1) := by
    have h28 : 2 * dr * (q0 + k * q1) = 2 * (dr * (q0 + k * q1)) := by ring
    omega
  -- rational-side abbreviating facts
  have hDQ : (0 : ℚ) < ((D * q1 : Int) : ℚ) := by
    exact_mod_cast mul_pos hDpos (by omega : (0:Int) < q1)
  have hDWQ : (0 : ℚ) < ((D * (q0 + k * q1) : Int) : ℚ) := by
    exact_mod_cast mul_pos hDpos hWpos
  have hdrQ : (0 : ℚ) < ((dr : Int) : ℚ) := by exact_mod_cast (by omega : (0:Int) < dr)
  have hE2Q : (0 : ℚ) < ((nr - k * dr : Int) : ℚ) := by exact_mod_cast hE2pos
  have hdiff1 : (N : ℚ) / D - (p1 : ℚ) / q1 =
      ((N * q1 - p1 * D : Int) : ℚ) / ((D * q1 : Int) : ℚ) := by
    push_cast
    have hDne : ((D : Int) : ℚ) ≠ 0 := by exact_mod_cast (by omega : D ≠ 0)
    have hq1ne : ((q1 : Int) : ℚ) ≠ 0 := by exact_mod_cast (by omega : q1 ≠ 0)
    field_simp
    ring
  have hdiff2 : (N : ℚ) / D - ((p0 + k * p1 : Int) : ℚ) / ((q0 + k * q1 : Int) : ℚ) =
      ((N * (q0 + k * q1) - (p0 + k * p1) * D : Int) : ℚ) /
        ((D * (q0 + k * q1) : Int) : ℚ) := by
    push_cast
    have hDne : ((D : Int) : ℚ) ≠ 0 := by exact_mod_cast (by omega : D ≠ 0)
    have hWne : ((q0 + k * q1 : Int) : ℚ) ≠ 0 := by
      exact_mod_cast (by omega : q0 + k * q1 ≠ 0)
    push_cast at hWne
    field_simp
    ring
  have hnum1 : N * q1 - p1 * D = -(p1 * q0 - p0 * q1) * dr := by
    rw [hrecN, hrecD]; ring
  have hnum2 : N * (q0 + k * q1) - (p0 + k * p1) * D =
      (p1 * q0 - p0 * q1) * (nr - k * dr) := by
    rw [hrecN, hrecD]; ring
  have hQA : (0:ℚ) < ((dr : Int) : ℚ) / ((D * q1 : Int) : ℚ) := div_pos hdrQ hDQ
  have hQB : (0:ℚ) < ((nr - k * dr : Int) : ℚ) / ((D * (q0 + k * q1) : Int) : ℚ) :=
    div_pos hE2Q hDWQ
  have hcmp : (dr * (q0 + k * q1) ≤ (nr - k * dr) * q1) ↔
      ((dr : Int) : ℚ) / ((D * q1 : Int) : ℚ) ≤
        ((nr - k * dr : Int) : ℚ) / ((D * (q0 + k * q1) : Int) : ℚ) := by
    rw [div_le_div_iff₀ hDQ hDWQ]
    have e0 : (((dr : Int) : ℚ) * ((D * (q0 + k * q1) : Int) : ℚ) ≤
        ((nr - k * dr : Int) : ℚ) * ((D * q1 : Int) : ℚ)) ↔
        (dr * (D * (q0 + k * q1)) ≤ (nr - k * dr) * (D * q1)) := by
      constructor <;> intro h <;> exact_mod_cast h
    rw [e0]
    have e1 : dr * (D * (q0 + k * q1)) = D * (dr * (q0 + k * q1)) := by ring
    have e2 : (nr - k * dr) * (D * q1) = D * ((nr - k * dr) * q1) := by ring
    rw [e1, e2]
    exact (mul_le_mul_left hDpos).symm
  rcases hdet with hδ | hδ
  · -- determinant 1: N/D lies below p1/q1 and above the semiconvergent
    have hv1 : N * q1 - p1 * D = -dr := by rw [hnum1, hδ]; ring
    have hv2 : N * (q0 + k * q1) - (p0 + k * p1) * D = nr - k * dr := by
      rw [hnum2, hδ]; ring
    have herrA : (N : ℚ) / D - (p1 : ℚ) / q1 =
        -(((dr : Int) : ℚ) / ((D * q1 : Int) : ℚ)) := by
      rw [hdiff1, hv1]
      push_cast
      rw [neg_div]
    have herrB : (N : ℚ) / D - ((p0 + k * p1 : Int) : ℚ) / ((q0 + k * q1 : Int) : ℚ) =
        ((nr - k * dr : Int) : ℚ) / ((D * (q0 + k * q1) : Int) : ℚ) := by
      rw [hdiff2, hv2]
    have habsA : |(N : ℚ) / D - (p1 : ℚ) / q1| =
        ((dr : Int) : ℚ) / ((D * q1 : Int) : ℚ) := by
      rw [herrA, abs_neg, abs_of_pos hQA]
    have habsB : |(N : ℚ) / D - ((p0 + k * p1 : Int) : ℚ) / ((q0 + k * q1 : Int) : ℚ)| =
        ((nr - k * dr : Int) : ℚ) / ((D * (q0 + k * q1) : Int) : ℚ) := by
      rw [herrB, abs_of_pos hQB]
    have herrA2 : (p1 : ℚ) / q1 - (N : ℚ) / D =
        ((dr : Int) : ℚ) / ((D * q1 : Int) : ℚ) := by
      linear_combination -herrA
    have hdet2 : p1 * (q0 + k * q1) - (p0 + k * p1) * q1 = 1 := by
      linear_combination hδ
    constructor
    · intro htest
      have h10 := hcmp.mp (hcond.mp htest)
      refine ⟨hq1, hq1M, ?_⟩
      intro pp qq hqq hqqM
      have hbg := best_in_gap (p0 + k * p1) (q0 + k * q1) p1 q1 N D pp qq M
        hWpos (by omega) hqq hqqM (by omega) hdet2
      rw [herrB, herrA2] at hbg
      rw [habsA]
      calc ((dr : Int) : ℚ) / ((D * q1 : Int) : ℚ)
          = min (((nr - k * dr : Int) : ℚ) / ((D * (q0 + k * q1) : Int) : ℚ))
              (((dr : Int) : ℚ) / ((D * q1 : Int) : ℚ)) := (min_eq_right h10).symm
        _ ≤ _ := hbg
    · intro htest
      have h10 : ((nr - k * dr : Int) : ℚ) / ((D * (q0 + k * q1) : Int) : ℚ) ≤
          ((dr : Int) : ℚ) / ((D * q1 : Int) : ℚ) := by
        have h11 : ¬ (dr * (q0 + k * q1) ≤ (nr - k * dr) * q1) := fun h =>
          htest (hcond.mpr h)
        by_contra hcon
        push_neg at hcon
        exact absurd (hcmp.mpr (le_of_lt hcon)) (by omega)
      refine ⟨hw1, hwM, ?_⟩
      intro pp qq hqq hqqM
      have hbg := best_in_gap (p0 + k * p1) (q0 + k * q1) p1 q1 N D pp qq M
        hWpos (by omega) hqq hqqM (by omega) hdet2
      rw [herrB, herrA2] at hbg
      rw [habsB]
      calc ((nr - k * dr : Int) : ℚ) / ((D * (q0 + k * q1) : Int) : ℚ)
          = min (((nr - k * dr : Int) : ℚ) / ((D * (q0 + k * q1) : Int) : ℚ))
              (((dr : Int) : ℚ) / ((D * q1 : Int) : ℚ)) := (min_eq_left h10).symm
        _ ≤ _ := hbg
  · -- determinant -1: N/D lies above p1/q1 and below the semiconvergent
    have hv1 : N * q1 - p1 * D = dr := by rw [hnum1, hδ]; ring
    have hv2 : N * (q0 + k * q1) - (p0 + k * p1) * D = -(nr - k * dr) := by
      rw [hnum2, hδ]; ring
    have herrA : (N : ℚ) / D - (p1 : ℚ) / q1 =
        ((dr : Int) : ℚ) / ((D * q1 : Int) : ℚ) := by
      rw [hdiff1, hv1]
    have herrB : (N : ℚ) / D - ((p0 + k * p1 : Int) : ℚ) / ((q0 + k * q1 : Int) : ℚ) =
        -(((nr - k * dr : Int) : ℚ) / ((D * (q0 + k * q1) : Int) : ℚ)) := by
      rw [hdiff2, hv2]
      push_cast
      rw [neg_div]
    have habsA : |(N : ℚ) / D - (p1 : ℚ) / q1| =
        ((dr : Int) : ℚ) / ((D * q1 : Int) : ℚ) := by
      rw [herrA, abs_of_pos hQA]
    have habsB : |(N : ℚ) / D - ((p0 + k * p1 : Int) : ℚ) / ((q0 + k * q1 : Int) : ℚ)| =
        ((nr - k * dr : Int) : ℚ) / ((D * (q0 + k * q1) : Int) : ℚ) := by
      rw [herrB, abs_neg, abs_of_pos hQB]
    have herrB2 : ((p0 + k * p1 : Int) : ℚ) / ((q0 + k * q1 : Int) : ℚ) -
        (N : ℚ) / D =
        ((nr - k * dr : Int) : ℚ) / ((D * (q0 + k * q1) : Int) : ℚ) := by
      linear_combination -herrB
    have hdet2 : (p0 + k * p1) * q1 - p1 * (q0 + k * q1) = 1 := by
      linear_combination -hδ
    constructor
    · intro htest
      have h10 := hcmp.mp (hcond.mp htest)
      refine ⟨hq1, hq1M, ?_⟩
      intro pp qq hqq hqqM
      have hbg := best_in_gap p1 q1 (p0 + k * p1) (q0 + k * q1) N D pp qq M
        (by omega) hWpos hqq hqqM (by omega) hdet2
      rw [herrA, herrB2] at hbg
      rw [habsA]
      calc ((dr : Int) : ℚ) / ((D * q1 : Int) : ℚ)
          = min (((dr : Int) : ℚ) / ((D * q1 : Int) : ℚ))
              (((nr - k * dr : Int) : ℚ) / ((D * (q0 + k * q1) : Int) : ℚ)) :=
            (min_eq_left h10).symm
        _ ≤ _ := hbg
    · intro htest
      have h10 : ((nr - k * dr : Int) : ℚ) / ((D * (q0 + k * q1) : Int) : ℚ) ≤
          ((dr : Int) : ℚ) / ((D * q1 : Int) : ℚ) := by
        have h11 : ¬ (dr * (q0 + k * q1) ≤ (nr - k * dr) * q1) := fun h =>
          htest (hcond.mpr h)
        by_contra hcon
        push_neg at hcon
        exact absurd (hcmp.mpr (le_of_lt hcon)) (by omega)
      refine ⟨hw1, hwM, ?_⟩
      intro pp qq hqq hqqM
      have hbg := best_in_gap p1 q1 (p0 + k * p1) (q0 + k * q1) N D pp qq M
        (by omega) hWpos hqq hqqM (by omega) hdet2
      rw [herrA, herrB2] at hbg
      rw [habsB]
      calc ((nr - k * dr : Int) : ℚ) / ((D * (q0 + k * q1) : Int) : ℚ)
          = min (((dr : Int) : ℚ) / ((D * q1 : Int) : ℚ))
              (((nr - k * dr : Int) : ℚ) / ((D * (q0 + k * q1) : Int) : ℚ)) :=
            (min_eq_right h10).symm
        _ ≤ _ := hbg

lemma ldLoop_init (N D M : Int) (hN : 0 < N) (hM : 1 ≤ M) (hMD : M < D)
    (hcop : Nat.gcd N.natAbs D.natAbs = 1) :
    ∃ st2, ldLoop M (D.natAbs + 2) ⟨0, 1, 1, 0, N, D⟩ = some st2 ∧
      ldInv N D M st2 ∧ 1 ≤ st2.d ∧
      M < st2.q0 + st2.n.tdiv st2.d * st2.q1 := by
  have hD0 : 0 < D := by omega
  have htd : N.tdiv D = N / D := Int.tdiv_eq_ediv (by omega) (by omega)
  have hamul : N / D * D ≤ N := Int.ediv_mul_le N (by omega)
  have hmod0 : 0 ≤ N - N.tdiv D * D := by rw [htd]; omega
  have hmodlt : N - N.tdiv D * D < D := by
    rw [htd]
    have h5 : N % D = N - D * (N / D) := Int.emod_def N D
    have h6 : N % D < D := Int.emod_lt_of_pos N (by omega)
    have h7 : D * (N / D) = N / D * D := by ring
    omega
  have step : ldLoop M (D.natAbs + 2) ⟨0, 1, 1, 0, N, D⟩ =
      ldLoop M (D.natAbs + 1) ⟨1, 0, N.tdiv D, 1, D, N - N.tdiv D * D⟩ := by
    show ldLoop M (D.natAbs + 1 + 1) ⟨0, 1, 1, 0, N, D⟩ = _
    simp only [ldLoop, mul_zero, mul_one, add_zero, zero_add]
    rw [if_neg (show ¬ ((⟨0, 1, 1, 0, N, D⟩ : LDState).d = 0) from by
      show ¬ (D = 0); omega)]
    rw [if_neg (show ¬ (M < (1 : Int)) from by omega)]
  rw [step]
  apply ldLoop_spec N D M hcop hMD (D.natAbs + 1)
  · refine ⟨by show N = N.tdiv D * D + 1 * (N - N.tdiv D * D); ring,
      by show D = 1 * D + 0 * (N - N.tdiv D * D); ring,
      Or.inr (by show N.tdiv D * 0 - 1 * 1 = -1; ring),
      by norm_num, ?_, by norm_num, by norm_num, by norm_num, ?_, ?_, ?_, ?_⟩
    · show (0 : Int) ≤ N.tdiv D
      exact Int.tdiv_nonneg (by omega) (by omega)
    · show (1 : Int) ≤ M
      omega
    · show (1 : Int) ≤ D
      omega
    · exact hmod0
    · exact hmodlt
  · show (N - N.tdiv D * D).natAbs < D.natAbs + 1
    omega

/-- C1 (amended): restricted to positive canonical fractions — for every
reduced fraction n/d with numerator at least 1 whose denominator exceeds
the bound m (m at least 1), `limit_denominator` returns `Ok` of a closest
rational approximation to n/d among all fractions with denominator at most
m, found by the convergent/semiconvergent walk; concretely,
`new(355,113).limit_denominator(7)` returns 22/7 and
`new(355,113).limit_denominator(100)` returns 311/99.  (Negative fractions
instead panic on a division by zero — see the counterexample.) -/
theorem c1_limit_denominator_best :
    (∀ n d m : Int, 1 ≤ n → Nat.gcd n.natAbs d.natAbs = 1 → 1 ≤ m → m < d →
      ∃ r : ExtFraction,
        ExtFraction.limit_denominator ⟨n, d⟩ m = some (Except.ok r) ∧
        isBestApprox n d m r.numerator r.denominator) ∧
    ExtFraction.limit_denominator (ExtFraction.new 355 113) 7 =
      some (Except.ok ⟨22, 7⟩) ∧
    ExtFraction.limit_denominator (ExtFraction.new 355 113) 100 =
      some (Except.ok ⟨311, 99⟩) := by
  refine ⟨?_, rfl, rfl⟩
  intro n d m hn hcop hm hmd
  have hd0 : 0 < d := by omega
  have hdne : d ≠ 0 := by omega
  have hb : ((⟨n, d⟩ : ExtFraction).is_nan || (⟨n, d⟩ : ExtFraction).is_infinite)
      = false := by
    simp [ExtFraction.is_nan, ExtFraction.is_infinite, hdne]
  rw [ExtFraction.limit_denominator]
  rw [if_neg (show ¬ (((⟨n, d⟩ : ExtFraction).is_nan ||
      (⟨n, d⟩ : ExtFraction).is_infinite) = true) from by rw [hb]; exact
    Bool.false_ne_true)]
  rw [if_neg (show ¬ (m < 1) from by omega)]
  rw [if_neg (show ¬ ((⟨n, d⟩ : ExtFraction).denominator ≤ m) from by
    show ¬ (d ≤ m); omega)]
  obtain ⟨st, hrun, hinv, hd1, hbreak⟩ := ldLoop_init n d m (by omega) hm hmd hcop
  have hrun' : ldLoop m ((⟨n, d⟩ : ExtFraction).denominator.natAbs + 2)
      ⟨0, 1, 1, 0, (⟨n, d⟩ : ExtFraction).numerator,
        (⟨n, d⟩ : ExtFraction).denominator⟩ = some st := hrun
  rw [hrun']
  show ∃ r : ExtFraction,
    (if 2 * st.d * (st.q0 + (m - st.q0).tdiv st.q1 * st.q1) ≤
        (⟨n, d⟩ : ExtFraction).denominator then
      some (Except.ok (⟨st.p1, st.q1⟩ : ExtFraction))
    else some (Except.ok (⟨st.p0 + (m - st.q0).tdiv st.q1 * st.p1,
      st.q0 + (m - st.q0).tdiv st.q1 * st.q1⟩ : ExtFraction))) =
      some (Except.ok r) ∧
    isBestApprox n d m r.numerator r.denominator
  obtain ⟨hrecN, hrecD, hdet, hp0, hp1, hq0, hq01, hq1, hq1M, hnr, hdge, hdlt⟩ := hinv
  obtain ⟨hbest1, hbest2⟩ := ldChoice_best n d m st.p0 st.q0 st.p1 st.q1 st.n st.d
    ((m - st.q0).tdiv st.q1) hrecN hrecD hdet hp0 hp1 hq0 hq01 hq1 hq1M hnr
    (by omega) hdlt hbreak rfl
  by_cases htest : 2 * st.d * (st.q0 + (m - st.q0).tdiv st.q1 * st.q1) ≤ d
  · rw [if_pos (show 2 * st.d * (st.q0 + (m - st.q0).tdiv st.q1 * st.q1) ≤
        (⟨n, d⟩ : ExtFraction).denominator from htest)]
    exact ⟨⟨st.p1, st.q1⟩, rfl, hbest1 htest⟩
  · rw [if_neg (show ¬ (2 * st.d * (st.q0 + (m - st.q0).tdiv st.q1 * st.q1) ≤
        (⟨n, d⟩ : ExtFraction).denominator) from htest)]
    exact ⟨⟨st.p0 + (m - st.q0).tdiv st.q1 * st.p1,
      st.q0 + (m - st.q0).tdiv st.q1 * st.q1⟩, rfl, hbest2 htest⟩

/-- C1 witness: the general theorem applied at 355/113 with bound 100. -/
theorem c1_witness :
    ∃ r : ExtFraction,
      ExtFraction.limit_denominator ⟨355, 113⟩ 100 = some (Except.ok r) ∧
      isBestApprox 355 113 100 r.numerator r.denominator :=
  c1_limit_denominator_best.1 355 113 100 (by decide) (by decide)
    (by decide) (by decide)
